import Mathlib

/-!
Shallow embedding of the core of a snapshot backup manager written in Python
(modules models.py, zfs.py, backup.py, compact.py): the snapshot model, the
history comparator, the per-dataset planner, the retention engine, the
transfer exit-code handling and the backup orchestrator.  Each definition is
translated from the corresponding Python function; executor interactions
(process spawning, dataset listing, command execution) are abstracted into the
facts they deliver, passed as explicit arguments.
-/

namespace Zbm

/-- A ZFS snapshot, embedding the `Snapshot` dataclass of models.py:
`dataset` is the container path, `name` the label after the `@`. -/
structure Snapshot where
  dataset : String
  name : String
deriving DecidableEq, Repr

/-- Embedding of the `full_name` property of models.py: `dataset@name`. -/
def Snapshot.full_name (s : Snapshot) : String :=
  s.dataset ++ "@" ++ s.name

/-- Embedding of the Python expression `full_name.partition(sep)` restricted to
the two components the code uses: the text before the first occurrence of the
separator and the text after it.  As with `str.partition`, when the separator
is absent the whole input is the first component and the second is empty. -/
def partitionChar (sep : Char) : List Char → List Char × List Char
  | [] => ([], [])
  | c :: rest =>
    if c = sep then ([], rest)
    else
      let p := partitionChar sep rest
      (c :: p.1, p.2)

/-- Embedding of `Snapshot.parse` (models.py): split the input on the first
`@` and fail (; the Python code raises ValueError, modelled as `none`) when
the resulting name part is empty. -/
def Snapshot.parse (full_name : String) : Option Snapshot :=
  let p := partitionChar '@' full_name.data
  if p.2 = [] then none
  else some { dataset := String.mk p.1, name := String.mk p.2 }

/-- The membership test `snap.name in dst_names` inside
`find_common_snapshot` (zfs.py), with the set of destination labels
represented by the list it is built from. -/
def sharedLabel (dst_snaps : List Snapshot) (s : Snapshot) : Bool :=
  dst_snaps.any (fun d => d.name == s.name)

/-- Embedding of `find_common_snapshot` (zfs.py): scan the source history
newest to oldest and return the first snapshot whose label appears among the
destination labels, `none` when no label ever matches. -/
def find_common_snapshot (src_snaps dst_snaps : List Snapshot) : Option Snapshot :=
  src_snaps.reverse.find? (sharedLabel dst_snaps)

theorem sharedLabel_eq_false_iff (dst : List Snapshot) (s : Snapshot) :
    sharedLabel dst s = false ↔ ∀ d ∈ dst, s.name ≠ d.name := by
  simp only [sharedLabel, List.any_eq_true, beq_iff_eq, Bool.eq_false_iff, ne_eq]
  constructor
  · intro h d hd he
    exact h ⟨d, hd, he.symm⟩
  · rintro h ⟨d, hd, he⟩
    exact h d hd he.symm

theorem sharedLabel_eq_true_iff (dst : List Snapshot) (s : Snapshot) :
    sharedLabel dst s = true ↔ ∃ d ∈ dst, d.name = s.name := by
  simp [sharedLabel]

/-- C2: `find_common_snapshot` returns `none` exactly when no label is shared
between the two histories; otherwise it returns a snapshot of the source
history whose label also occurs on the destination and such that no source
snapshot occurring later (more recent) has a shared label. -/
theorem find_common_snapshot_spec (src dst : List Snapshot) :
    (find_common_snapshot src dst = none ↔
      ∀ s ∈ src, ∀ d ∈ dst, s.name ≠ d.name)
    ∧ ∀ c, find_common_snapshot src dst = some c →
        (∃ d ∈ dst, d.name = c.name)
        ∧ ∃ l₁ l₂, src = l₁ ++ c :: l₂ ∧
            ∀ t ∈ l₂, ∀ d ∈ dst, t.name ≠ d.name := by
  constructor
  · rw [find_common_snapshot, List.find?_eq_none]
    constructor
    · intro h s hs
      have := h s (by simpa using hs)
      rw [Bool.not_eq_true, sharedLabel_eq_false_iff] at this
      exact this
    · intro h s hs
      rw [Bool.not_eq_true, sharedLabel_eq_false_iff]
      exact h s (by simpa using hs)
  · intro c hc
    rw [find_common_snapshot, List.find?_eq_some] at hc
    obtain ⟨hshared, as, bs, hsplit, hfail⟩ := hc
    refine ⟨(sharedLabel_eq_true_iff dst c).mp hshared, bs.reverse, as.reverse, ?_, ?_⟩
    · have := congrArg List.reverse hsplit
      simpa using this
    · intro t ht
      have ht' : t ∈ as := by simpa using ht
      have := hfail t ht'
      rw [Bool.not_eq_eq_eq_not, Bool.not_true, sharedLabel_eq_false_iff] at this
      exact fun d hd => this d hd

/-- Embedding of the `_DatasetPlan` dataclass of backup.py.  Fields keep the
Python names; `common`, `latest` are optional snapshots, defaults as in the
dataclass. -/
structure DatasetPlan where
  src_dataset : String
  dst_dataset : String
  action : String := "skip"
  common : Option Snapshot := none
  latest : Option Snapshot := none
  new_snap_count : Nat := 0
  rollback_victims : List Snapshot := []
  message : String := ""
  bootstrap_cmd : String := ""
deriving DecidableEq, Repr

/-- Embedding of `_plan_dataset` (backup.py).  The two `dataset_exists` calls
and the two `list_snapshots` calls are abstracted into the facts they deliver
(`src_exists`, `dst_exists`, `src_snaps`, `dst_snaps`); the call to
`_format_bootstrap_command` — which only formats a message from the label of
the first source snapshot — is abstracted as the function `bootstrap`. -/
def plan_dataset (src_dataset dst_dataset : String)
    (src_exists dst_exists : Bool)
    (src_snaps dst_snaps : List Snapshot)
    (bootstrap : String → String) : DatasetPlan :=
  let base : DatasetPlan := { src_dataset := src_dataset, dst_dataset := dst_dataset }
  if !src_exists then
    { base with
      action := "error"
      message := "Source dataset does not exist: " ++ src_dataset }
  else if !dst_exists then
    { base with
      action := "error"
      message := "Destination dataset does not exist: " ++ dst_dataset
      bootstrap_cmd :=
        match src_snaps with
        | [] => ""
        | s :: _ => bootstrap s.name }
  else
    match src_snaps with
    | [] =>
      { base with
        action := "skip"
        message := "Source has no snapshots" }
    | s₀ :: rest =>
      match find_common_snapshot (s₀ :: rest) dst_snaps with
      | none =>
        { base with
          action := "error"
          message := "No common snapshot found between source and destination"
          bootstrap_cmd := bootstrap s₀.name }
      | some common =>
        let needs_rollback : Bool :=
          match dst_snaps.getLast? with
          | none => false
          | some last => last.name != common.name
        let rollback_victims : List Snapshot :=
          if needs_rollback then
            dst_snaps.drop (dst_snaps.findIdx (fun s => s.name == common.name) + 1)
          else []
        let new_snaps : List Snapshot :=
          (s₀ :: rest).drop
            ((s₀ :: rest).findIdx (fun s => s.name == common.name) + 1)
        if new_snaps.isEmpty && !needs_rollback then
          { base with
            action := "up_to_date"
            common := some common
            message := "Already up to date" }
        else
          { base with
            common := some common
            action :=
              if needs_rollback then
                if !new_snaps.isEmpty then "rollback_and_send" else "rollback_only"
              else "send"
            rollback_victims := rollback_victims
            -- the Python code assigns latest and new_snap_count only when
            -- new_snaps is nonempty; on the empty list these expressions give
            -- the dataclass defaults none and 0, so the guard is redundant
            latest := new_snaps.getLast?
            new_snap_count := new_snaps.length }

theorem findIdx_split {α : Type} (q : α → Bool) (l : List α)
    (h : ∃ x ∈ l, q x = true) :
    ∃ x l₁ l₂, l = l₁ ++ x :: l₂ ∧ q x = true ∧ (∀ y ∈ l₁, q y = false) ∧
      l.findIdx q = l₁.length ∧ l.drop (l.findIdx q + 1) = l₂ := by
  induction l with
  | nil => simp at h
  | cons a t ih =>
    by_cases ha : q a = true
    · exact ⟨a, [], t, by simp, ha, by simp, by simp [List.findIdx_cons, ha],
        by simp [List.findIdx_cons, ha]⟩
    · have ht : ∃ x ∈ t, q x = true := by
        obtain ⟨x, hx, hqx⟩ := h
        rcases List.mem_cons.mp hx with rfl | hx'
        · exact absurd hqx ha
        · exact ⟨x, hx', hqx⟩
      obtain ⟨x, l₁, l₂, hsplit, hqx, hfalse, hidx, hdrop⟩ := ih ht
      refine ⟨x, a :: l₁, l₂, by simp [hsplit], hqx, ?_, ?_, ?_⟩
      · intro y hy
        rcases List.mem_cons.mp hy with rfl | hy'
        · exact Bool.eq_false_iff.mpr ha
        · exact hfalse y hy'
      · simp [List.findIdx_cons, ha, hidx]
      · simpa [List.findIdx_cons, ha] using hdrop

theorem sharedLabel_of_find_common {src dst : List Snapshot} {c : Snapshot}
    (hc : find_common_snapshot src dst = some c) : sharedLabel dst c = true := by
  unfold find_common_snapshot at hc
  exact List.find?_some hc

theorem dst_ne_nil_of_find_common {src dst : List Snapshot} {c : Snapshot}
    (hc : find_common_snapshot src dst = some c) : dst ≠ [] := by
  have h := (sharedLabel_eq_true_iff dst c).mp (sharedLabel_of_find_common hc)
  obtain ⟨d, hd, _⟩ := h
  intro he
  rw [he] at hd
  simp at hd

/-- Evaluation of the planner in the case where a common snapshot was found:
both datasets exist, the source history is nonempty, and the comparator
returned `c`.  The plan is determined by the rollback condition and the list
of new source snapshots. -/
theorem plan_dataset_common_eval
    (sd dd : String) (bootstrap : String → String)
    (s₀ : Snapshot) (rest dst : List Snapshot) (c last : Snapshot)
    (hc : find_common_snapshot (s₀ :: rest) dst = some c)
    (hlast : dst.getLast? = some last) :
    plan_dataset sd dd true true (s₀ :: rest) dst bootstrap =
      (if ((s₀ :: rest).drop
            ((s₀ :: rest).findIdx (fun s => s.name == c.name) + 1)).isEmpty
          && !(last.name != c.name) then
        { src_dataset := sd, dst_dataset := dd, action := "up_to_date",
          common := some c, message := "Already up to date" }
      else
        { src_dataset := sd, dst_dataset := dd,
          common := some c,
          action :=
            if last.name != c.name then
              if !((s₀ :: rest).drop
                  ((s₀ :: rest).findIdx (fun s => s.name == c.name) + 1)).isEmpty then
                "rollback_and_send"
              else "rollback_only"
            else "send",
          rollback_victims :=
            if last.name != c.name then
              dst.drop (dst.findIdx (fun s => s.name == c.name) + 1)
            else [],
          latest := ((s₀ :: rest).drop
            ((s₀ :: rest).findIdx (fun s => s.name == c.name) + 1)).getLast?,
          new_snap_count := ((s₀ :: rest).drop
            ((s₀ :: rest).findIdx (fun s => s.name == c.name) + 1)).length }) := by
  simp only [plan_dataset, hc, hlast, Bool.not_true, Bool.false_eq_true, if_false]

/-- C3: when the planner finds a common snapshot, the action is classified
exactly by the rollback condition (the label of the newest destination
snapshot differs from the common label) and by the existence of new source
snapshots (the source snapshots strictly after the position of the common
label); when new source snapshots exist, the plan records their last element
as `latest` and their number as `new_snap_count`. -/
theorem plan_dataset_classification
    (sd dd : String) (bootstrap : String → String)
    (src dst : List Snapshot) (c : Snapshot)
    (hsrc : src ≠ []) (hc : find_common_snapshot src dst = some c) :
    ∃ last, dst.getLast? = some last ∧
      ((plan_dataset sd dd true true src dst bootstrap).action = "up_to_date" ↔
        last.name = c.name ∧
          src.drop (src.findIdx (fun s => s.name == c.name) + 1) = [])
      ∧ ((plan_dataset sd dd true true src dst bootstrap).action = "send" ↔
        last.name = c.name ∧
          src.drop (src.findIdx (fun s => s.name == c.name) + 1) ≠ [])
      ∧ ((plan_dataset sd dd true true src dst bootstrap).action = "rollback_and_send" ↔
        last.name ≠ c.name ∧
          src.drop (src.findIdx (fun s => s.name == c.name) + 1) ≠ [])
      ∧ ((plan_dataset sd dd true true src dst bootstrap).action = "rollback_only" ↔
        last.name ≠ c.name ∧
          src.drop (src.findIdx (fun s => s.name == c.name) + 1) = [])
      ∧ (src.drop (src.findIdx (fun s => s.name == c.name) + 1) ≠ [] →
          ∃ pre fin,
            src.drop (src.findIdx (fun s => s.name == c.name) + 1) = pre ++ [fin] ∧
            (plan_dataset sd dd true true src dst bootstrap).latest = some fin ∧
            (plan_dataset sd dd true true src dst bootstrap).new_snap_count =
              pre.length + 1) := by
  obtain ⟨s₀, rest, rfl⟩ := List.exists_cons_of_ne_nil hsrc
  have hdst := dst_ne_nil_of_find_common hc
  refine ⟨dst.getLast hdst, List.getLast?_eq_getLast dst hdst, ?_⟩
  rw [plan_dataset_common_eval sd dd bootstrap s₀ rest dst c (dst.getLast hdst) hc
    (List.getLast?_eq_getLast dst hdst)]
  generalize (s₀ :: rest).drop
      ((s₀ :: rest).findIdx (fun s => s.name == c.name) + 1) = ns
  by_cases hR : (dst.getLast hdst).name = c.name
  · have hRb : ((dst.getLast hdst).name != c.name) = false := by simp [hR]
    by_cases hN : ns = []
    · subst hN
      simp [hR, hRb]
    · simp [hR, hRb, hN]
      refine ⟨ns.dropLast, ns.getLast hN, (List.dropLast_append_getLast hN).symm,
        List.getLast?_eq_getLast _ hN, ?_⟩
      have hpos := List.length_pos.mpr hN
      rw [List.length_dropLast]
      omega
  · have hRb : ((dst.getLast hdst).name != c.name) = true := bne_iff_ne.mpr hR
    by_cases hN : ns = []
    · subst hN
      simp [hR, hRb]
    · simp [hR, hRb, hN]
      refine ⟨ns.dropLast, ns.getLast hN, (List.dropLast_append_getLast hN).symm,
        List.getLast?_eq_getLast _ hN, ?_⟩
      have hpos := List.length_pos.mpr hN
      rw [List.length_dropLast]
      omega

/-- C1: when the planner finds a common snapshot, a rollback is required
exactly when the label of the newest (last) destination snapshot differs from
the common label; in that case the recorded victims are exactly the
destination snapshots strictly after the (first) destination position
carrying the common label; when the common label is the newest destination
snapshot, no victim is recorded and the plan is a plain send as soon as new
source snapshots exist. -/
theorem plan_dataset_rollback_spec
    (sd dd : String) (bootstrap : String → String)
    (src dst : List Snapshot) (c : Snapshot)
    (hsrc : src ≠ []) (hc : find_common_snapshot src dst = some c) :
    ∃ last, dst.getLast? = some last ∧
      (((plan_dataset sd dd true true src dst bootstrap).action = "rollback_and_send"
          ∨ (plan_dataset sd dd true true src dst bootstrap).action = "rollback_only") ↔
        last.name ≠ c.name)
      ∧ (last.name ≠ c.name →
          ∃ d l₁ l₂, dst = l₁ ++ d :: l₂ ∧ d.name = c.name ∧
            (∀ y ∈ l₁, y.name ≠ c.name) ∧
            (plan_dataset sd dd true true src dst bootstrap).rollback_victims = l₂)
      ∧ (last.name = c.name →
          (plan_dataset sd dd true true src dst bootstrap).rollback_victims = [] ∧
          (src.drop (src.findIdx (fun s => s.name == c.name) + 1) ≠ [] →
            (plan_dataset sd dd true true src dst bootstrap).action = "send")) := by
  obtain ⟨s₀, rest, rfl⟩ := List.exists_cons_of_ne_nil hsrc
  have hdst := dst_ne_nil_of_find_common hc
  have hshared : ∃ x ∈ dst, (fun s => s.name == c.name) x = true :=
    List.any_eq_true.mp (sharedLabel_of_find_common hc)
  obtain ⟨x, l₁, l₂, hsplit, hqx, hfalse, hidx, hdrop⟩ :=
    findIdx_split (fun s => s.name == c.name) dst hshared
  refine ⟨dst.getLast hdst, List.getLast?_eq_getLast dst hdst, ?_⟩
  rw [plan_dataset_common_eval sd dd bootstrap s₀ rest dst c (dst.getLast hdst) hc
    (List.getLast?_eq_getLast dst hdst)]
  generalize (s₀ :: rest).drop
      ((s₀ :: rest).findIdx (fun s => s.name == c.name) + 1) = ns
  by_cases hR : (dst.getLast hdst).name = c.name
  · have hRb : ((dst.getLast hdst).name != c.name) = false := by simp [hR]
    by_cases hN : ns = []
    · subst hN
      simp [hR, hRb]
    · simp [hR, hRb, hN]
  · have hRb : ((dst.getLast hdst).name != c.name) = true := bne_iff_ne.mpr hR
    by_cases hN : ns = []
    · subst hN
      simp [hR, hRb]
      exact ⟨x, l₁, l₂, hsplit, by simpa using hqx,
        fun y hy => by simpa using hfalse y hy, hdrop⟩
    · simp [hR, hRb, hN]
      exact ⟨x, l₁, l₂, hsplit, by simpa using hqx,
        fun y hy => by simpa using hfalse y hy, hdrop⟩

/-- Witness for C1 at the second planner scenario of the spec: source labels
`[a, b, c]`, destination labels `[a, d, b]` — the common point `b` is the
newest destination snapshot, so no rollback: the plan is a plain send. -/
theorem plan_dataset_rollback_spec_witness :
    (plan_dataset "p/ds" "q/ds" true true
      [Snapshot.mk "p" "a", Snapshot.mk "p" "b", Snapshot.mk "p" "c"]
      [Snapshot.mk "q" "a", Snapshot.mk "q" "d", Snapshot.mk "q" "b"]
      (fun s => s)).action = "send" := by
  obtain ⟨last, hlast, h1, h2, h3⟩ :=
    plan_dataset_rollback_spec "p/ds" "q/ds" (fun s => s)
      [Snapshot.mk "p" "a", Snapshot.mk "p" "b", Snapshot.mk "p" "c"]
      [Snapshot.mk "q" "a", Snapshot.mk "q" "d", Snapshot.mk "q" "b"]
      (Snapshot.mk "p" "b") (by decide) (by decide)
  rw [show ([Snapshot.mk "q" "a", Snapshot.mk "q" "d", Snapshot.mk "q" "b"] :
      List Snapshot).getLast? = some (Snapshot.mk "q" "b") from by decide] at hlast
  obtain rfl := Option.some.inj hlast
  exact (h3 (by decide)).2 (by decide)

/-- Witness for C3 at the first planner scenario of the spec: source labels
`[a, b, c]`, destination labels `[a, b, d]` — the destination diverged after
the common point `b` and a new source snapshot exists, so the action is
classified as rollback-and-send. -/
theorem plan_dataset_classification_witness :
    (plan_dataset "p/ds" "q/ds" true true
      [Snapshot.mk "p" "a", Snapshot.mk "p" "b", Snapshot.mk "p" "c"]
      [Snapshot.mk "q" "a", Snapshot.mk "q" "b", Snapshot.mk "q" "d"]
      (fun s => s)).action = "rollback_and_send" := by
  obtain ⟨last, hlast, h1, h2, h3, h4, h5⟩ :=
    plan_dataset_classification "p/ds" "q/ds" (fun s => s)
      [Snapshot.mk "p" "a", Snapshot.mk "p" "b", Snapshot.mk "p" "c"]
      [Snapshot.mk "q" "a", Snapshot.mk "q" "b", Snapshot.mk "q" "d"]
      (Snapshot.mk "p" "b") (by decide) (by decide)
  rw [show ([Snapshot.mk "q" "a", Snapshot.mk "q" "b", Snapshot.mk "q" "d"] :
      List Snapshot).getLast? = some (Snapshot.mk "q" "d") from by decide] at hlast
  obtain rfl := Option.some.inj hlast
  exact h3.mpr ⟨by decide, by decide⟩

/-- A retention rule, embedding the `RetentionRule` dataclass of models.py.
The Python field `pattern` is a regular-expression text matched with
`re.fullmatch`; the embedding carries the denotation of that regex under full
matching: a Boolean predicate on the whole candidate string. -/
structure RetentionRule where
  pattern : String → Bool
  keep : Nat

/-- Embedding of `RetentionRule.matches` (models.py): full-match the pattern
against the given snapshot name. -/
def RetentionRule.matches (r : RetentionRule) (snapshot_name : String) : Bool :=
  r.pattern snapshot_name

/-- The per-rule candidate computation inside `_snapshots_to_delete`
(compact.py): filter the history to the matching snapshots (oldest first),
then keep everything for `keep = 0`, nothing when at most `keep` snapshots
match, and otherwise the oldest `length - keep` matches. -/
def ruleCandidates (snapshots : List Snapshot) (rule : RetentionRule) :
    List Snapshot :=
  let matching := snapshots.filter (fun s => rule.matches s.full_name)
  if rule.keep = 0 then matching
  else if matching.length ≤ rule.keep then []
  else matching.take (matching.length - rule.keep)

/-- One step of the dedup loop of `_snapshots_to_delete` (compact.py): append
the snapshot unless its fully qualified name was already seen.  The Python
`seen` set is modelled by the list of names already added. -/
def addCandidate (st : List Snapshot × List String) (snap : Snapshot) :
    List Snapshot × List String :=
  if snap.full_name ∈ st.2 then st
  else (st.1 ++ [snap], snap.full_name :: st.2)

/-- Embedding of `_snapshots_to_delete` (compact.py): for each rule in order,
the candidates are appended with first-seen dedup keyed on the fully
qualified snapshot name. -/
def snapshots_to_delete (snapshots : List Snapshot)
    (rules : List RetentionRule) : List Snapshot :=
  (rules.foldl
    (fun st rule => (ruleCandidates snapshots rule).foldl addCandidate st)
    ([], [])).1

/-- C4: for a single retention rule evaluated on a history (oldest first):
with `keep = 0` every matching snapshot is a candidate; with at most `keep`
snapshots matching there is no candidate; otherwise the candidates are
exactly the oldest `matches − keep` matching snapshots, so the retained
matches are precisely the newest `keep` of them. -/
theorem ruleCandidates_spec (snaps : List Snapshot) (r : RetentionRule) :
    (r.keep = 0 → ruleCandidates snaps r =
      snaps.filter (fun s => r.matches s.full_name))
    ∧ ((snaps.filter (fun s => r.matches s.full_name)).length ≤ r.keep →
      ruleCandidates snaps r = [])
    ∧ (0 < r.keep →
      r.keep < (snaps.filter (fun s => r.matches s.full_name)).length →
      ∃ kept,
        snaps.filter (fun s => r.matches s.full_name) =
          ruleCandidates snaps r ++ kept ∧
        (ruleCandidates snaps r).length =
          (snaps.filter (fun s => r.matches s.full_name)).length - r.keep ∧
        kept.length = r.keep) := by
  refine ⟨?_, ?_, ?_⟩
  · intro h
    simp [ruleCandidates, h]
  · intro h
    rcases Nat.eq_zero_or_pos r.keep with h0 | hpos
    · have hnil : snaps.filter (fun s => r.matches s.full_name) = [] := by
        rw [h0, Nat.le_zero] at h
        exact List.length_eq_zero.mp h
      simp [ruleCandidates, h0, hnil]
    · simp [ruleCandidates, Nat.pos_iff_ne_zero.mp hpos, h]
  · intro hpos hlt
    have hne : r.keep ≠ 0 := Nat.pos_iff_ne_zero.mp hpos
    have hnle : ¬(snaps.filter (fun s => r.matches s.full_name)).length ≤ r.keep :=
      Nat.not_le.mpr hlt
    have hcand : ruleCandidates snaps r =
        (snaps.filter (fun s => r.matches s.full_name)).take
          ((snaps.filter (fun s => r.matches s.full_name)).length - r.keep) := by
      simp [ruleCandidates, hne, hnle]
    refine ⟨(snaps.filter (fun s => r.matches s.full_name)).drop
      ((snaps.filter (fun s => r.matches s.full_name)).length - r.keep),
      ?_, ?_, ?_⟩
    · rw [hcand, List.take_append_drop]
    · rw [hcand, List.length_take]
      omega
    · rw [List.length_drop]
      omega

/-- Witness for C4 at a history of three matching snapshots and `keep = 1`:
the two oldest are candidates, the newest is kept. -/
theorem ruleCandidates_spec_witness :
    ∃ kept,
      ([Snapshot.mk "q" "s1", Snapshot.mk "q" "s2", Snapshot.mk "q" "s3"] :
          List Snapshot).filter
        (fun s => (RetentionRule.mk (fun _ => true) 1).matches s.full_name) =
        ruleCandidates
          [Snapshot.mk "q" "s1", Snapshot.mk "q" "s2", Snapshot.mk "q" "s3"]
          (RetentionRule.mk (fun _ => true) 1) ++ kept ∧
      (ruleCandidates
          [Snapshot.mk "q" "s1", Snapshot.mk "q" "s2", Snapshot.mk "q" "s3"]
          (RetentionRule.mk (fun _ => true) 1)).length =
        (([Snapshot.mk "q" "s1", Snapshot.mk "q" "s2", Snapshot.mk "q" "s3"] :
            List Snapshot).filter
          (fun s => (RetentionRule.mk (fun _ => true) 1).matches s.full_name)).length
          - 1 ∧
      kept.length = 1 :=
  (ruleCandidates_spec
    [Snapshot.mk "q" "s1", Snapshot.mk "q" "s2", Snapshot.mk "q" "s3"]
    (RetentionRule.mk (fun _ => true) 1)).2.2 (by decide) (by decide)

/-- Specification-side description of first-seen deduplication keyed on the
fully qualified snapshot name, `seen` being the keys already emitted; written
from the spec wording for comparison with the engine fold. -/
def dedupAux (seen : List String) : List Snapshot → List Snapshot
  | [] => []
  | s :: rest =>
    if s.full_name ∈ seen then dedupAux seen rest
    else s :: dedupAux (s.full_name :: seen) rest

/-- First-seen deduplication by fully qualified name, from the spec wording. -/
def dedupByFullName (l : List Snapshot) : List Snapshot :=
  dedupAux [] l

theorem foldl_addCandidate_eq (l : List Snapshot) :
    ∀ td seen, l.foldl addCandidate (td, seen) =
      (td ++ dedupAux seen l,
        (dedupAux seen l).reverse.map Snapshot.full_name ++ seen) := by
  induction l with
  | nil => intro td seen; simp [dedupAux]
  | cons s rest ih =>
    intro td seen
    by_cases hm : s.full_name ∈ seen
    · rw [List.foldl_cons, show addCandidate (td, seen) s = (td, seen) from by
        simp [addCandidate, hm], ih, dedupAux]
      simp [hm]
    · rw [List.foldl_cons, show addCandidate (td, seen) s =
          (td ++ [s], s.full_name :: seen) from by simp [addCandidate, hm],
        ih, dedupAux]
      simp [hm]

theorem dedupAux_names_nodup (l : List Snapshot) :
    ∀ seen, ((dedupAux seen l).map Snapshot.full_name).Nodup ∧
      ∀ s ∈ dedupAux seen l, s.full_name ∉ seen := by
  induction l with
  | nil =>
    intro seen
    simp [dedupAux]
  | cons a rest ih =>
    intro seen
    by_cases hm : a.full_name ∈ seen
    · rw [show dedupAux seen (a :: rest) = dedupAux seen rest from by
        simp [dedupAux, hm]]
      exact ih seen
    · rw [show dedupAux seen (a :: rest) =
          a :: dedupAux (a.full_name :: seen) rest from by simp [dedupAux, hm]]
      obtain ⟨hnodup, hnot⟩ := ih (a.full_name :: seen)
      refine ⟨?_, ?_⟩
      · simp only [List.map_cons, List.nodup_cons]
        refine ⟨?_, hnodup⟩
        intro hmem
        obtain ⟨t, ht, hte⟩ := List.mem_map.mp hmem
        have := hnot t ht
        simp [hte] at this
      · intro s hs
        rcases List.mem_cons.mp hs with rfl | hs'
        · exact hm
        · intro hcon
          exact hnot s hs' (List.mem_cons_of_mem _ hcon)

theorem dedupAux_complete (l : List Snapshot) :
    ∀ seen, ∀ s ∈ l, s.full_name ∈ seen ∨
      ∃ t ∈ dedupAux seen l, t.full_name = s.full_name := by
  induction l with
  | nil =>
    intro seen s hs
    simp at hs
  | cons a rest ih =>
    intro seen s hs
    by_cases hm : a.full_name ∈ seen
    · rcases List.mem_cons.mp hs with rfl | hs'
      · exact Or.inl hm
      · rcases ih seen s hs' with h | ⟨t, ht, hte⟩
        · exact Or.inl h
        · refine Or.inr ⟨t, ?_, hte⟩
          simpa [dedupAux, hm] using ht
    · rcases List.mem_cons.mp hs with rfl | hs'
      · exact Or.inr ⟨s, by simp [dedupAux, hm], rfl⟩
      · rcases ih (a.full_name :: seen) s hs' with h | ⟨t, ht, hte⟩
        · rcases List.mem_cons.mp h with he | hseen
          · exact Or.inr ⟨a, by simp [dedupAux, hm], he.symm⟩
          · exact Or.inl hseen
        · refine Or.inr ⟨t, ?_, hte⟩
          simp only [dedupAux, hm, if_false]
          exact List.mem_cons_of_mem _ ht

/-- C5: the combined result of the engine is the concatenation of the
per-rule candidate lists deduplicated by fully qualified name in first-seen
order, the emitted names are pairwise distinct, and every candidate of some
rule contributes its name exactly once to the result. -/
theorem snapshots_to_delete_spec (snaps : List Snapshot)
    (rules : List RetentionRule) :
    snapshots_to_delete snaps rules =
      dedupByFullName ((rules.map (ruleCandidates snaps)).flatten)
    ∧ ((snapshots_to_delete snaps rules).map Snapshot.full_name).Nodup
    ∧ ∀ s ∈ (rules.map (ruleCandidates snaps)).flatten,
        ((snapshots_to_delete snaps rules).map Snapshot.full_name).count
          s.full_name = 1 := by
  have hfold : ((rules.map (ruleCandidates snaps)).flatten).foldl addCandidate
        (([], []) : List Snapshot × List String) =
      rules.foldl
        (fun st rule => (ruleCandidates snaps rule).foldl addCandidate st)
        ([], []) := by
    rw [List.foldl_flatten, List.foldl_map]
  have h1 : snapshots_to_delete snaps rules =
      dedupByFullName ((rules.map (ruleCandidates snaps)).flatten) := by
    unfold snapshots_to_delete dedupByFullName
    rw [← hfold, foldl_addCandidate_eq]
    simp
  refine ⟨h1, ?_, ?_⟩
  · rw [h1]
    exact (dedupAux_names_nodup _ []).1
  · intro s hs
    rcases dedupAux_complete ((rules.map (ruleCandidates snaps)).flatten) [] s hs
      with h | ⟨t, ht, hte⟩
    · simp at h
    · rw [h1]
      apply List.count_eq_one_of_mem (dedupAux_names_nodup _ []).1
      rw [← hte]
      exact List.mem_map_of_mem _ ht

/-- Witness for C5: one snapshot matched by two identical keep-zero rules
appears exactly once in the combined deletion result. -/
theorem snapshots_to_delete_spec_witness :
    ((snapshots_to_delete [Snapshot.mk "q" "s1"]
        [RetentionRule.mk (fun _ => true) 0, RetentionRule.mk (fun _ => true) 0]).map
      Snapshot.full_name).count (Snapshot.mk "q" "s1").full_name = 1 :=
  (snapshots_to_delete_spec [Snapshot.mk "q" "s1"]
    [RetentionRule.mk (fun _ => true) 0, RetentionRule.mk (fun _ => true) 0]).2.2
    (Snapshot.mk "q" "s1") (by decide)

/-- Denotation of full-matching a regex pattern text given as the list of
the full-match denotations of its top-level alternation branches.  In a
Python regex the alternation operator `|` has the lowest precedence, so a
pattern text is, at its outermost level, a sequence of one or more branch
texts separated by `|`, and `re.fullmatch` of the whole pattern succeeds
exactly when some top-level branch full-matches the whole string. -/
def branchesMatch (branches : List (String → Bool)) (s : String) : Bool :=
  branches.any (fun b => b s)

/-- The engine-level rule carried by a pattern text with the given top-level
branches: `RetentionRule(pattern=text, keep=keep)` has a `matches` method
whose denotation is the alternation of the branch denotations. -/
def ruleOfBranches (branches : List (String → Bool)) (keep : Nat) :
    RetentionRule :=
  { pattern := branchesMatch branches, keep := keep }

/-- Embedding of the rule qualification step in `run_compact` (compact.py):
`RetentionRule(pattern=re.escape(dst_dataset) + "@" + rule.pattern,
keep=rule.keep)` concatenates pattern TEXTS.  Because `|` has the lowest
precedence, decomposing the concatenated text into top-level branches glues
the alternation-free literal `re.escape(dst_dataset) + "@"` onto the FIRST
top-level branch of the rule pattern only; the remaining branches of the
rule pattern stay top-level branches of the qualified pattern, unchanged
and not anchored to the container.  For the first branch the glued text
denotes the literal container prefix followed by the branch; this reading
assumes the branch text does not begin with a quantifier token, which would
instead bind the final `@` of the literal. -/
def qualifyBranches (dst_dataset : String) :
    List (String → Bool) → List (String → Bool)
  | [] => []
  | b :: rest =>
    (fun s => (dst_dataset ++ "@").data.isPrefixOf s.data &&
      b (String.mk (s.data.drop (dst_dataset ++ "@").data.length))) :: rest

/-- The qualified rule built in `run_compact` from a rule whose pattern
text has the given top-level branches. -/
def qualifyRule (dst_dataset : String) (branches : List (String → Bool))
    (keep : Nat) : RetentionRule :=
  ruleOfBranches (qualifyBranches dst_dataset branches) keep

theorem at_split_unique {l₁ l₂ r₁ r₂ : List Char}
    (h : l₁ ++ '@' :: r₁ = l₂ ++ '@' :: r₂)
    (h₁ : '@' ∉ l₁) (h₂ : '@' ∉ l₂) : l₁ = l₂ ∧ r₁ = r₂ := by
  induction l₁ generalizing l₂ with
  | nil =>
    cases l₂ with
    | nil => simpa using h
    | cons b t₂ =>
      simp only [List.nil_append, List.cons_append, List.cons.injEq] at h
      exact absurd (h.1 ▸ List.mem_cons_self b t₂) h₂
  | cons a t₁ ih =>
    cases l₂ with
    | nil =>
      simp only [List.cons_append, List.nil_append, List.cons.injEq] at h
      exact absurd (h.1 ▸ List.mem_cons_self a t₁) h₁
    | cons b t₂ =>
      simp only [List.cons_append, List.cons.injEq] at h
      have ht := ih h.2 (fun hx => h₁ (List.mem_cons_of_mem _ hx))
        (fun hx => h₂ (List.mem_cons_of_mem _ hx))
      exact ⟨by rw [h.1, ht.1], ht.2⟩

/-- Counterexample to C8 as stated: the rule pattern `daily-.*|.*-old` has
the top-level branches `daily-.*` and `.*-old`; qualified to the container
`tank/BACKUP/pool/ds` the pattern text becomes
`tank/BACKUP/pool/ds@daily-.*|.*-old` (escapes elided), whose second
top-level branch `.*-old` is not anchored to the container: the qualified
rule full-matches the fully qualified name `other/ds@snap-old` of a
snapshot on a different container, although neither container text contains
an `@` character. -/
theorem qualifyRule_crossmatch :
    ((qualifyRule "tank/BACKUP/pool/ds"
        [fun s => ("daily-" : String).data.isPrefixOf s.data,
          fun s => ("-old" : String).data.isSuffixOf s.data] 5).matches
      (Snapshot.mk "other/ds" "snap-old").full_name = true)
    ∧ (Snapshot.mk "other/ds" "snap-old").dataset ≠ "tank/BACKUP/pool/ds"
    ∧ '@' ∉ ("tank/BACKUP/pool/ds" : String).data
    ∧ '@' ∉ (Snapshot.mk "other/ds" "snap-old").dataset.data := by
  decide

/-- C8 (amended): when the rule pattern consists of a single top-level
branch â no top-level alternation â composing sequentially after the
escaped container prefix, the qualified rule matches the fully qualified
name of a snapshot only if the snapshot container equals the qualifying
container `d`, provided neither container text contains an `@` character. -/
theorem qualifyRule_matches_only_own_container
    (d : String) (b : String → Bool) (keep : Nat) (s : Snapshot)
    (hd : '@' ∉ d.data) (hs : '@' ∉ s.dataset.data)
    (hm : (qualifyRule d [b] keep).matches s.full_name = true) :
    s.dataset = d := by
  have hm' : ((d ++ "@").data.isPrefixOf s.full_name.data &&
      b (String.mk (s.full_name.data.drop (d ++ "@").data.length))) = true := by
    have h := hm
    rw [show (qualifyRule d [b] keep).matches s.full_name =
          (((d ++ "@").data.isPrefixOf s.full_name.data &&
            b (String.mk (s.full_name.data.drop (d ++ "@").data.length))) ||
            false)
        from rfl] at h
    simpa using h
  rw [Bool.and_eq_true] at hm'
  have hpre := hm'.1
  rw [ List.isPrefixOf_iff_prefix] at hpre
  obtain ⟨t, ht⟩ := hpre
  have hdata : (d ++ "@").data = d.data ++ ['@'] := by
    rw [String.data_append, show ("@" : String).data = ['@'] from rfl]
  have hfull : s.full_name.data = s.dataset.data ++ '@' :: s.name.data := by
    show ((s.dataset ++ "@") ++ s.name).data = _
    rw [String.data_append, String.data_append,
      show ("@" : String).data = ['@'] from rfl]
    simp
  rw [hdata, hfull] at ht
  have ht' : d.data ++ '@' :: t = s.dataset.data ++ '@' :: s.name.data := by
    simpa using ht
  obtain ⟨heq, -⟩ := at_split_unique ht' hd hs
  exact String.ext heq.symm

/-- Witness for C8 (amended): a single-branch rule qualified at the
container `q/ds` applied to the snapshot `q/ds@snap1`. -/
theorem qualifyRule_matches_only_own_container_witness :
    (Snapshot.mk "q/ds" "snap1").dataset = "q/ds" :=
  qualifyRule_matches_only_own_container "q/ds" (fun _ => true) 0
    (Snapshot.mk "q/ds" "snap1") (by decide) (by decide) (by decide)

theorem partitionChar_spec (sep : Char) (l : List Char) :
    (sep ∉ l ∧ partitionChar sep l = (l, []))
    ∨ ∃ pre suf, l = pre ++ sep :: suf ∧ sep ∉ pre ∧
        partitionChar sep l = (pre, suf) := by
  induction l with
  | nil => exact Or.inl ⟨by simp, rfl⟩
  | cons c rest ih =>
    by_cases hc : c = sep
    · subst hc
      exact Or.inr ⟨[], rest, by simp, by simp, by simp [partitionChar]⟩
    · rcases ih with ⟨hmem, heq⟩ | ⟨pre, suf, hsplit, hmem, heq⟩
      · refine Or.inl ⟨?_, by simp [partitionChar, hc, heq]⟩
        intro hx
        rcases List.mem_cons.mp hx with he | hx'
        · exact hc he.symm
        · exact hmem hx'
      · refine Or.inr ⟨c :: pre, suf, by simp [hsplit], ?_,
          by simp [partitionChar, hc, heq]⟩
        intro hx
        rcases List.mem_cons.mp hx with he | hx'
        · exact hc he.symm
        · exact hmem hx'

/-- C9: constructing a snapshot from its canonical textual form fails exactly
when the input has no `@` separator or the part after the first `@` is
empty; on success the container is the text before the first `@` and the
label is the (nonempty) remainder. -/
theorem snapshot_parse_spec (input : String) :
    (Snapshot.parse input = none ↔
      ('@' ∉ input.data ∨ ∃ pre, input.data = pre ++ ['@'] ∧ '@' ∉ pre))
    ∧ ∀ snap, Snapshot.parse input = some snap →
        input.data = snap.dataset.data ++ '@' :: snap.name.data ∧
        '@' ∉ snap.dataset.data ∧ snap.name.data ≠ [] := by
  rcases partitionChar_spec '@' input.data with ⟨hmem, heq⟩ |
    ⟨pre, suf, hsplit, hmem, heq⟩
  · constructor
    · rw [show Snapshot.parse input = none from by simp [Snapshot.parse, heq]]
      simp [hmem]
    · intro snap hsnap
      rw [show Snapshot.parse input = none from by
        simp [Snapshot.parse, heq]] at hsnap
      exact absurd hsnap (by simp)
  · by_cases hsuf : suf = []
    · subst hsuf
      constructor
      · rw [show Snapshot.parse input = none from by simp [Snapshot.parse, heq]]
        exact iff_of_true rfl (Or.inr ⟨pre, by simpa using hsplit, hmem⟩)
      · intro snap hsnap
        rw [show Snapshot.parse input = none from by
          simp [Snapshot.parse, heq]] at hsnap
        exact absurd hsnap (by simp)
    · have hparse : Snapshot.parse input =
          some { dataset := String.mk pre, name := String.mk suf } := by
        simp [Snapshot.parse, heq, hsuf]
      constructor
      · rw [hparse]
        simp only [reduceCtorEq, false_iff]
        push_neg
        constructor
        · rw [hsplit]
          simp
        · intro pre2 h2
          by_contra hmem2
          rw [hsplit] at h2
          have := at_split_unique (by simpa using h2) hmem hmem2
          exact hsuf this.2
      · intro snap hsnap
        rw [hparse] at hsnap
        obtain rfl := Option.some.inj hsnap
        exact ⟨hsplit, hmem, hsuf⟩

/-- Witness for C9: parsing the canonical form `pool/ds@snap1`. -/
theorem snapshot_parse_spec_witness :
    ("pool/ds@snap1" : String).data =
      (Snapshot.mk "pool/ds" "snap1").dataset.data ++ '@' ::
        (Snapshot.mk "pool/ds" "snap1").name.data ∧
    '@' ∉ (Snapshot.mk "pool/ds" "snap1").dataset.data ∧
    (Snapshot.mk "pool/ds" "snap1").name.data ≠ [] :=
  (snapshot_parse_spec "pool/ds@snap1").2 (Snapshot.mk "pool/ds" "snap1")
    (by decide)

/-- Outcome of a completed transfer: `success` models `send_incremental`
returning normally, `failure` models the raised ExecutorError with the
command, return code, and stderr text it carries. -/
inductive TransferResult where
  | success : TransferResult
  | failure (cmd : List String) (returncode : Int) (stderr : String) :
      TransferResult
deriving DecidableEq, Repr

/-- Embedding of the exit-code inspection at the end of `send_incremental`
(zfs.py), after both processes were waited on: the two wait results
`send_rc` and `recv_rc` are inspected; if either is non-zero an
ExecutorError is raised carrying the piped command, the larger of the two
exit codes, and a message naming both; otherwise the call returns. -/
def send_incremental_exit (send_cmd recv_cmd : List String)
    (send_rc recv_rc : Int) : TransferResult :=
  if send_rc ≠ 0 ∨ recv_rc ≠ 0 then
    .failure (send_cmd ++ ["|"] ++ recv_cmd) (max send_rc recv_rc)
      ("send exited " ++ toString send_rc ++ ", recv exited " ++ toString recv_rc)
  else
    .success

/-- C6: a completed transfer succeeds exactly when both the send process and
the receive process exit with code zero; whenever either exit code is
non-zero the result is a failure carrying the worse (larger) of the two exit
codes and a message citing both exit statuses — in particular a non-zero
receive exit is never masked by a zero send exit. -/
theorem send_incremental_exit_spec (send_cmd recv_cmd : List String)
    (send_rc recv_rc : Int) :
    (send_incremental_exit send_cmd recv_cmd send_rc recv_rc =
        TransferResult.success ↔ send_rc = 0 ∧ recv_rc = 0)
    ∧ (send_rc ≠ 0 ∨ recv_rc ≠ 0 →
      send_incremental_exit send_cmd recv_cmd send_rc recv_rc =
        TransferResult.failure (send_cmd ++ ["|"] ++ recv_cmd)
          (max send_rc recv_rc)
          ("send exited " ++ toString send_rc ++ ", recv exited " ++
            toString recv_rc)) := by
  constructor
  · constructor
    · intro h
      by_contra hne
      unfold send_incremental_exit at h
      rw [if_pos (show send_rc ≠ 0 ∨ recv_rc ≠ 0 from by tauto)] at h
      exact absurd h (by simp)
    · rintro ⟨h1, h2⟩
      simp [send_incremental_exit, h1, h2]
  · intro h
    unfold send_incremental_exit
    rw [if_pos h]

/-- Witness for C6: a receive exit of 1 with a send exit of 0 yields a
failure carrying exit code 1 and a message citing both statuses. -/
theorem send_incremental_exit_spec_witness :
    send_incremental_exit ["zfs", "send"] ["zfs", "recv"] 0 1 =
      TransferResult.failure (["zfs", "send"] ++ ["|"] ++ ["zfs", "recv"])
        (max 0 1) ("send exited " ++ toString (0 : Int) ++ ", recv exited " ++
          toString (1 : Int)) :=
  (send_incremental_exit_spec ["zfs", "send"] ["zfs", "recv"] 0 1).2
    (Or.inr (by decide))

/-- Whether a plan belongs to the rollback batch, as tested by
`p.action in ("rollback_and_send", "rollback_only")` in `run_backup`. -/
def isRollbackPlan (p : DatasetPlan) : Bool :=
  p.action == "rollback_and_send" || p.action == "rollback_only"

/-- One iteration of the rollback loop of `run_backup` (backup.py, phase 3)
over the state `(any_error, sent_count, rollback_count)`.  Outside dry-run
mode the rollback command is attempted, its success given by the oracle
`rollbackOk`; on failure the dataset is abandoned with the error recorded;
on success, when the plan has a pending latest snapshot the transfer is
attempted, its success given by `sendOk`.  In dry-run mode the rollback is
counted and the transfer call returns after printing, so neither oracle is
consulted. -/
def execRollbackPlan (dry_run : Bool) (rollbackOk sendOk : DatasetPlan → Bool)
    (st : Bool × Nat × Nat) (p : DatasetPlan) : Bool × Nat × Nat :=
  if dry_run then
    if p.latest.isSome then (st.1, st.2.1 + 1, st.2.2 + 1)
    else (st.1, st.2.1, st.2.2 + 1)
  else
    if rollbackOk p then
      if p.latest.isSome then
        if sendOk p then (st.1, st.2.1 + 1, st.2.2 + 1)
        else (true, st.2.1, st.2.2 + 1)
      else (st.1, st.2.1, st.2.2 + 1)
    else (true, st.2.1, st.2.2)

/-- One iteration of the send loop of `run_backup` (backup.py, phase 3) over
the same state; in dry-run mode `send_incremental` returns right after
printing, so it always succeeds. -/
def execSendPlan (dry_run : Bool) (sendOk : DatasetPlan → Bool)
    (st : Bool × Nat × Nat) (p : DatasetPlan) : Bool × Nat × Nat :=
  if dry_run then (st.1, st.2.1 + 1, st.2.2)
  else if sendOk p then (st.1, st.2.1 + 1, st.2.2)
  else (true, st.2.1, st.2.2)

/-- Embedding of `run_backup` (backup.py).  The configuration is abstracted
to its `datasets` list and the pure mapping `dataset_for` (the method
`config.destination.dataset_for`); the per-dataset call to `_plan_dataset`
is abstracted as `planOf` over the source and destination names; the
outcomes of the rollback command and of `send_incremental` are given by the
oracles `rollbackOk` and `sendOk`; `confirm_answer` is the reply the user
gives at the single rollback confirmation prompt.  Printing is dropped; the
returned number is the process exit code. -/
def run_backup (datasets : List String) (dataset_for : String → String)
    (planOf : String → String → DatasetPlan)
    (rollbackOk sendOk : DatasetPlan → Bool)
    (dry_run no_confirm confirm_answer : Bool) : Nat :=
  if datasets.isEmpty then 1
  else
    let plans := datasets.map (fun ds => planOf ds (dataset_for ds))
    let rollback_plans := plans.filter isRollbackPlan
    let send_plans := plans.filter (fun p => p.action == "send")
    let error_plans := plans.filter (fun p => p.action == "error")
    if !rollback_plans.isEmpty && !no_confirm && !confirm_answer then 1
    else
      let st₁ := rollback_plans.foldl
        (execRollbackPlan dry_run rollbackOk sendOk) (!error_plans.isEmpty, 0, 0)
      let st₂ := send_plans.foldl (execSendPlan dry_run sendOk) st₁
      if st₂.1 then 1 else 0

/-- The condition under which one rollback plan records an error during
execution. -/
def rollbackPlanFails (dry_run : Bool) (rollbackOk sendOk : DatasetPlan → Bool)
    (p : DatasetPlan) : Bool :=
  !dry_run && (!rollbackOk p || (p.latest.isSome && !sendOk p))

/-- The condition under which one send plan records an error during
execution. -/
def sendPlanFails (dry_run : Bool) (sendOk : DatasetPlan → Bool)
    (p : DatasetPlan) : Bool :=
  !dry_run && !sendOk p

theorem foldl_execRollbackPlan_err (dry_run : Bool)
    (rollbackOk sendOk : DatasetPlan → Bool) (l : List DatasetPlan) :
    ∀ st, (l.foldl (execRollbackPlan dry_run rollbackOk sendOk) st).1 =
      (st.1 || l.any (rollbackPlanFails dry_run rollbackOk sendOk)) := by
  induction l with
  | nil =>
    intro st
    simp
  | cons p rest ih =>
    intro st
    rw [List.foldl_cons, ih, List.any_cons]
    have hstep : (execRollbackPlan dry_run rollbackOk sendOk st p).1 =
        (st.1 || rollbackPlanFails dry_run rollbackOk sendOk p) := by
      unfold execRollbackPlan rollbackPlanFails
      cases dry_run <;> cases hr : rollbackOk p <;>
        cases hl : p.latest.isSome <;> cases hs : sendOk p <;> simp [hr, hl, hs]
    rw [hstep, Bool.or_assoc]

theorem foldl_execSendPlan_err (dry_run : Bool) (sendOk : DatasetPlan → Bool)
    (l : List DatasetPlan) :
    ∀ st, (l.foldl (execSendPlan dry_run sendOk) st).1 =
      (st.1 || l.any (sendPlanFails dry_run sendOk)) := by
  induction l with
  | nil =>
    intro st
    simp
  | cons p rest ih =>
    intro st
    rw [List.foldl_cons, ih, List.any_cons]
    have hstep : (execSendPlan dry_run sendOk st p).1 =
        (st.1 || sendPlanFails dry_run sendOk p) := by
      unfold execSendPlan sendPlanFails
      cases dry_run <;> cases hs : sendOk p <;> simp [hs]
    rw [hstep, Bool.or_assoc]

theorem rollbackPlanFails_eq_false_iff (dry_run : Bool)
    (rollbackOk sendOk : DatasetPlan → Bool) (p : DatasetPlan) :
    rollbackPlanFails dry_run rollbackOk sendOk p = false ↔
      (dry_run = false →
        rollbackOk p = true ∧ (p.latest.isSome = true → sendOk p = true)) := by
  unfold rollbackPlanFails
  cases dry_run <;> cases hr : rollbackOk p <;>
    cases hl : p.latest.isSome <;> cases hs : sendOk p <;> simp [hr, hl, hs]

theorem sendPlanFails_eq_false_iff (dry_run : Bool)
    (sendOk : DatasetPlan → Bool) (p : DatasetPlan) :
    sendPlanFails dry_run sendOk p = false ↔
      (dry_run = false → sendOk p = true) := by
  unfold sendPlanFails
  cases dry_run <;> cases hs : sendOk p <;> simp [hs]

/-- C7 (amended): in a run whose configured datasets list is nonempty and
which is not aborted at the rollback confirmation prompt, the exit code is 0
exactly when no dataset errored: no plan was classified `error` and, outside
dry-run mode, every executed rollback succeeded, every transfer pending
behind a rollback succeeded, and every plain send succeeded.  Plans
classified `skip` or `up_to_date` never count: a run whose plans are all
`skip` or `up_to_date` exits 0. -/
theorem run_backup_success_iff
    (datasets : List String) (dataset_for : String → String)
    (planOf : String → String → DatasetPlan)
    (rollbackOk sendOk : DatasetPlan → Bool)
    (dry_run no_confirm confirm_answer : Bool)
    (hne : datasets ≠ [])
    (hnoabort : (datasets.map (fun ds => planOf ds (dataset_for ds))).filter
        isRollbackPlan = [] ∨ no_confirm = true ∨ confirm_answer = true) :
    (run_backup datasets dataset_for planOf rollbackOk sendOk dry_run
        no_confirm confirm_answer = 0 ↔
      ((datasets.map (fun ds => planOf ds (dataset_for ds))).filter
          (fun p => p.action == "error") = [] ∧
        (dry_run = false →
          (∀ p ∈ (datasets.map (fun ds => planOf ds (dataset_for ds))).filter
              isRollbackPlan,
            rollbackOk p = true ∧ (p.latest.isSome = true → sendOk p = true)) ∧
          ∀ p ∈ (datasets.map (fun ds => planOf ds (dataset_for ds))).filter
              (fun p => p.action == "send"),
            sendOk p = true)))
    ∧ ((∀ p ∈ datasets.map (fun ds => planOf ds (dataset_for ds)),
          p.action = "skip" ∨ p.action = "up_to_date") →
        run_backup datasets dataset_for planOf rollbackOk sendOk dry_run
          no_confirm confirm_answer = 0) := by
  set plans := datasets.map (fun ds => planOf ds (dataset_for ds)) with hplansdef
  set rbs := plans.filter isRollbackPlan with hrbs
  set sds := plans.filter (fun p => p.action == "send") with hsds
  set errs := plans.filter (fun p => p.action == "error") with herrs
  have hds : datasets.isEmpty = false := List.isEmpty_eq_false.mpr hne
  have habort : (!rbs.isEmpty && !no_confirm && !confirm_answer) = false := by
    rcases hnoabort with h | h | h <;> simp [h]
  have hrun : run_backup datasets dataset_for planOf rollbackOk sendOk dry_run
      no_confirm confirm_answer =
      if (sds.foldl (execSendPlan dry_run sendOk)
          (rbs.foldl (execRollbackPlan dry_run rollbackOk sendOk)
            (!errs.isEmpty, 0, 0))).1
      then 1 else 0 := by
    simp only [run_backup]
    rw [← hplansdef, ← hrbs, ← hsds, ← herrs, hds, habort]
    simp only [Bool.false_eq_true, if_false]
  rw [hrun, foldl_execSendPlan_err, foldl_execRollbackPlan_err]
  have hif : ∀ b : Bool, (if b = true then (1 : Nat) else 0) = 0 ↔ b = false := by
    intro b
    cases b <;> simp
  rw [hif]
  constructor
  · rw [Bool.or_eq_false_iff, Bool.or_eq_false_iff]
    constructor
    · rintro ⟨⟨h1, h2⟩, h3⟩
      refine ⟨?_, ?_⟩
      · rw [Bool.not_eq_false'] at h1
        exact List.isEmpty_iff.mp h1
      · intro hdry
        refine ⟨?_, ?_⟩
        · intro p hp
          have := List.any_eq_false.mp h2 p hp
          rw [Bool.not_eq_true] at this
          exact (rollbackPlanFails_eq_false_iff dry_run rollbackOk sendOk p).mp
            this hdry
        · intro p hp
          have := List.any_eq_false.mp h3 p hp
          rw [Bool.not_eq_true] at this
          exact (sendPlanFails_eq_false_iff dry_run sendOk p).mp this hdry
    · rintro ⟨h1, h2⟩
      refine ⟨⟨?_, ?_⟩, ?_⟩
      · rw [Bool.not_eq_false', List.isEmpty_iff]
        exact h1
      · rw [List.any_eq_false]
        intro p hp
        rw [Bool.not_eq_true, rollbackPlanFails_eq_false_iff]
        intro hdry
        exact (h2 hdry).1 p hp
      · rw [List.any_eq_false]
        intro p hp
        rw [Bool.not_eq_true, sendPlanFails_eq_false_iff]
        intro hdry
        exact (h2 hdry).2 p hp
  · intro hall
    have herrnil : errs = [] := by
      rw [herrs, List.filter_eq_nil_iff]
      intro p hp
      rcases hall p hp with h | h <;> simp [h, isRollbackPlan]
    have hrbnil : rbs = [] := by
      rw [hrbs, List.filter_eq_nil_iff]
      intro p hp
      rcases hall p hp with h | h <;> simp [h, isRollbackPlan]
    have hsdnil : sds = [] := by
      rw [hsds, List.filter_eq_nil_iff]
      intro p hp
      rcases hall p hp with h | h <;> simp [h]
    rw [herrnil, hrbnil, hsdnil]
    simp

/-- Counterexample to C7 as universally stated: a run with an empty
configured datasets list exits 1 although zero datasets errored, and a run
aborted by the user at the rollback confirmation prompt exits 1 although no
plan is an error plan and every rollback and transfer would succeed. -/
theorem run_backup_exit_one_without_errors :
    (run_backup [] (fun s => s)
        (fun sd dd => { src_dataset := sd, dst_dataset := dd })
        (fun _ => true) (fun _ => true) false false false = 1)
    ∧ (run_backup ["ds"] (fun s => s)
        (fun sd dd =>
          { src_dataset := sd, dst_dataset := dd, action := "rollback_and_send" })
        (fun _ => true) (fun _ => true) false false false = 1)
    ∧ ((["ds"].map (fun ds =>
        ({ src_dataset := ds, dst_dataset := ds,
           action := "rollback_and_send" } : DatasetPlan))).filter
        (fun p => p.action == "error") = []) := by
  refine ⟨rfl, ?_, by decide⟩
  decide

/-- Witness for C7 (amended) at a run with one up-to-date dataset and no
confirmation needed: the exit code is 0. -/
theorem run_backup_success_iff_witness :
    run_backup ["ds"] (fun s => s)
      (fun sd dd =>
        { src_dataset := sd, dst_dataset := dd, action := "up_to_date" })
      (fun _ => true) (fun _ => true) false true false = 0 :=
  (run_backup_success_iff ["ds"] (fun s => s)
    (fun sd dd =>
      { src_dataset := sd, dst_dataset := dd, action := "up_to_date" })
    (fun _ => true) (fun _ => true) false true false
    (by decide) (Or.inr (Or.inl rfl))).2 (by decide)

/-- C10: with an empty configured datasets list the run exits 1 immediately,
whatever the planner, the oracles and the flags: neither planning nor
execution is ever consulted. -/
theorem run_backup_empty_datasets (dataset_for : String → String)
    (planOf : String → String → DatasetPlan)
    (rollbackOk sendOk : DatasetPlan → Bool)
    (dry_run no_confirm confirm_answer : Bool) :
    run_backup [] dataset_for planOf rollbackOk sendOk dry_run no_confirm
      confirm_answer = 1 := rfl

/-- Witness for C2 at concrete histories: source `[p@a, p@b]` against
destination `[q@b]` finds `p@b` as the common snapshot. -/
theorem find_common_snapshot_spec_witness :
    (∃ d ∈ [Snapshot.mk "q" "b"], d.name = (Snapshot.mk "p" "b").name)
    ∧ ∃ l₁ l₂,
        [Snapshot.mk "p" "a", Snapshot.mk "p" "b"] = l₁ ++ Snapshot.mk "p" "b" :: l₂ ∧
        ∀ t ∈ l₂, ∀ d ∈ [Snapshot.mk "q" "b"], t.name ≠ d.name :=
  (find_common_snapshot_spec [Snapshot.mk "p" "a", Snapshot.mk "p" "b"]
    [Snapshot.mk "q" "b"]).2 (Snapshot.mk "p" "b") (by decide)

end Zbm
